import Mathlib

/-!
Verification of the platelet-segmentation exercise notebook
(`transformer_representation_part_2_exercise.ipynb`).

The notebook wraps paired image/mask TIFF stacks in a `TiffDataset`
(resize, normalization statistics, inverse-frequency class weights),
extracts per-patch features from a frozen DINOv2 transformer, trains a
small convolutional head, bilinearly upsamples the head's logits to the
image resolution, and accumulates confusion-matrix statistics per epoch.

This file embeds the notebook's own logic shallowly:

* rasters are `Grid α = List (List α)` (a list of rows), a volume/stack
  is a `List (Grid _)`, pixel arithmetic is exact over `ℚ` (numpy/torch
  float arithmetic is idealised as exact rational/real arithmetic);
* `np.unique`, inverse-frequency weights, min-max scaling, mean and
  variance are embedded directly from the dataset class;
* torchvision's `resize` (smaller-edge sizing) and `F.interpolate`
  (bilinear with `align_corners=False`, and `nearest-exact`) are
  implemented over `ℚ` grids;
* the numpy standard deviation is `Real.sqrt` of the rational variance;
  definitions carry the (rational) variance and theorems relate its
  real square root, so every definition stays executable;
* the training loop's parameter updates are modelled with a small
  expression language with symbolic differentiation, which makes
  `torch.no_grad` (detaching the DINOv2 features) and the optimizer
  step explicit.
-/

/-! ## Rasters -/

/-- A raster (one channel of an image, or a label mask): a list of rows. -/
abbrev Grid (α : Type) := List (List α)

/-- Number of rows of a grid. -/
def gridH {α : Type} (g : Grid α) : ℕ := g.length

/-- Number of columns of a grid (taken from the first row). -/
def gridW {α : Type} (g : Grid α) : ℕ := (g.headD []).length

/-- All pixel values of a grid, row-major. -/
def gridVals {α : Type} (g : Grid α) : List α := g.flatten

/-- Every row has the width of the first row. -/
def Rectangular {α : Type} (g : Grid α) : Prop := ∀ row ∈ g, row.length = gridW g

/-- All pixel values of a stack of rasters (numpy operations on the
whole 3-d array see exactly this flattened list). -/
def stackVals {α : Type} (stack : List (Grid α)) : List α :=
  (stack.map gridVals).flatten

/-- Cast a label/uint8 grid to rational pixel values. -/
def natGridQ (g : Grid ℕ) : Grid ℚ := g.map (List.map (Nat.cast : ℕ → ℚ))

/-! ## Minimum and maximum of a pixel list (`ndarray.min()` / `ndarray.max()`) -/

/-- Minimum of a list of naturals (`0` for the empty list; numpy raises there). -/
def listMin : List ℕ → ℕ
  | [] => 0
  | [x] => x
  | x :: y :: t => min x (listMin (y :: t))

/-- Maximum of a list of naturals (`0` for the empty list; numpy raises there). -/
def listMax : List ℕ → ℕ
  | [] => 0
  | [x] => x
  | x :: y :: t => max x (listMax (y :: t))

lemma listMin_le {l : List ℕ} {a : ℕ} (h : a ∈ l) : listMin l ≤ a := by
  induction l with
  | nil => cases h
  | cons x t ih =>
    cases t with
    | nil =>
      rcases List.mem_singleton.mp h with rfl
      exact le_refl _
    | cons y s =>
      rcases List.mem_cons.mp h with rfl | hmem
      · exact min_le_left _ _
      · exact le_trans (min_le_right _ _) (ih hmem)

lemma le_listMax {l : List ℕ} {a : ℕ} (h : a ∈ l) : a ≤ listMax l := by
  induction l with
  | nil => cases h
  | cons x t ih =>
    cases t with
    | nil =>
      rcases List.mem_singleton.mp h with rfl
      exact le_refl _
    | cons y s =>
      rcases List.mem_cons.mp h with rfl | hmem
      · exact le_max_left _ _
      · exact le_trans (ih hmem) (le_max_right _ _)

lemma listMin_mem {l : List ℕ} (h : l ≠ []) : listMin l ∈ l := by
  induction l with
  | nil => exact absurd rfl h
  | cons x t ih =>
    cases t with
    | nil => simp [listMin]
    | cons y s =>
      rcases min_cases x (listMin (y :: s)) with ⟨heq, _⟩ | ⟨heq, _⟩
      · simp [listMin, heq]
      · exact List.mem_cons.mpr (Or.inr (by rw [show listMin (x :: y :: s) = min x (listMin (y :: s)) from rfl, heq]; exact ih (by simp)))

lemma listMax_mem {l : List ℕ} (h : l ≠ []) : listMax l ∈ l := by
  induction l with
  | nil => exact absurd rfl h
  | cons x t ih =>
    cases t with
    | nil => simp [listMax]
    | cons y s =>
      rcases max_cases x (listMax (y :: s)) with ⟨heq, _⟩ | ⟨heq, _⟩
      · simp [listMax, heq]
      · exact List.mem_cons.mpr (Or.inr (by rw [show listMax (x :: y :: s) = max x (listMax (y :: s)) from rfl, heq]; exact ih (by simp)))

/-! ## `TiffDataset.get_mean_std` and min-max scaling -/

/-- Min-max scaling of the image stack's pixels, one step of
`get_mean_std`: `(self.images - _min) / (_max - _min)`. -/
def scaled_imgs (pixels : List ℕ) : List ℚ :=
  pixels.map fun v =>
    ((v : ℚ) - (listMin pixels : ℚ)) / ((listMax pixels : ℚ) - (listMin pixels : ℚ))

/-- The denominator `_max - _min` that `get_mean_std` divides by. -/
def minmax_denom (pixels : List ℕ) : ℚ :=
  (listMax pixels : ℚ) - (listMin pixels : ℚ)

/-- Mean of a list of rationals (`ndarray.mean()`). -/
def qMean (l : List ℚ) : ℚ := l.sum / l.length

/-- Population variance of a list of rationals: numpy's `ndarray.std()`
is the square root of this (`ddof = 0`). -/
def qVar (l : List ℚ) : ℚ := (l.map fun x => (x - qMean l) ^ 2).sum / l.length

/-- `TiffDataset.get_mean_std`, carried as (mean, variance): the numpy
standard deviation is the square root of the mean squared deviation of
the min-max-scaled stack, which is irrational in general, so the
embedding returns the variance (the square of the returned std);
theorems relate `Real.sqrt` of the second component. -/
def get_mean_std_sq (pixels : List ℕ) : ℚ × ℚ :=
  (qMean (scaled_imgs pixels), qVar (scaled_imgs pixels))

/-! ## `np.unique` and `TiffDataset.get_class_weights` -/

/-- Sorted distinct values of a list, as `np.unique` returns them. -/
def npUnique (l : List ℕ) : List ℕ := l.toFinset.sort (· ≤ ·)

/-- `TiffDataset.get_class_weights` on the flattened ground-truth mask
stack: counts of the distinct values (`np.unique(..., return_counts=True)`),
reciprocals, then normalization by the sum. -/
def get_class_weights (gt_masks : List ℕ) : List ℚ :=
  let counts := (npUnique gt_masks).map fun v => (gt_masks.count v : ℚ)
  let weights := counts.map fun c => 1 / c
  weights.map fun w => w / weights.sum

lemma mem_npUnique {l : List ℕ} {v : ℕ} : v ∈ npUnique l ↔ v ∈ l := by
  unfold npUnique
  rw [Finset.mem_sort, List.mem_toFinset]

lemma npUnique_of_range (l : List ℕ) (n : ℕ) (hall : ∀ c < n, c ∈ l)
    (hlt : ∀ v ∈ l, v < n) : npUnique l = List.range n := by
  unfold npUnique
  have hfin : l.toFinset = Finset.range n := by
    ext x
    rw [List.mem_toFinset, Finset.mem_range]
    exact ⟨fun hx => hlt x hx, fun hx => hall x hx⟩
  rw [hfin, Finset.sort_range]

lemma list_sum_map_div {α β : Type} [DivisionRing α] (l : List β) (f : β → α) (c : α) :
    (l.map fun x => f x / c).sum = (l.map f).sum / c := by
  induction l with
  | nil => simp
  | cons x t ih => simp [ih, add_div]

/-- The normalized inverse counts of the labels `0, …, n-1`, the value
`get_class_weights` takes when exactly those labels occur. -/
def invFreqWeights (gt_masks : List ℕ) (n : ℕ) : List ℚ :=
  (List.range n).map fun c =>
    (1 / (gt_masks.count c : ℚ)) / ((List.range n).map fun k => 1 / (gt_masks.count k : ℚ)).sum

lemma get_class_weights_of_range (l : List ℕ) (n : ℕ) (hall : ∀ c < n, c ∈ l)
    (hlt : ∀ v ∈ l, v < n) : get_class_weights l = invFreqWeights l n := by
  unfold get_class_weights invFreqWeights
  rw [npUnique_of_range l n hall hlt]
  simp only [List.map_map]
  rfl

lemma invFreq_sum_pos (l : List ℕ) (n : ℕ) (hn : 0 < n) (hall : ∀ c < n, c ∈ l) :
    0 < ((List.range n).map fun k => 1 / (l.count k : ℚ)).sum := by
  apply List.sum_pos
  · intro x hx
    rcases List.mem_map.mp hx with ⟨k, hk, rfl⟩
    have hkmem : k ∈ l := hall k (List.mem_range.mp hk)
    have hpos : 0 < l.count k := List.count_pos_iff.mpr hkmem
    have : (0 : ℚ) < (l.count k : ℚ) := by exact_mod_cast hpos
    positivity
  · simp [List.map_eq_nil_iff, List.range_eq_nil]
    omega

/-! ## Claims C1, C9, C10 -/

/-- C1: whenever the ground-truth mask stack contains all seven labels
0..6 (and no others), `TiffDataset.get_class_weights` returns seven
weights ordered by label; the weight at position `c` is the reciprocal
of class `c`'s pixel count divided by the sum of all seven reciprocals
(so it is proportional to 1 / count), and the weights sum to 1. -/
theorem C1_class_weights_inverse_frequency (masks : List ℕ)
    (hall : ∀ c < 7, c ∈ masks) (hlt : ∀ v ∈ masks, v < 7) :
    (get_class_weights masks).length = 7 ∧
    (∀ c, c < 7 → (get_class_weights masks).getD c 0 =
      (1 / (masks.count c : ℚ)) /
        ((List.range 7).map fun k => 1 / (masks.count k : ℚ)).sum) ∧
    (get_class_weights masks).sum = 1 := by
  rw [get_class_weights_of_range masks 7 hall hlt]
  refine ⟨by simp [invFreqWeights], fun c hc => ?_, ?_⟩
  · rw [invFreqWeights, List.getD_eq_getElem _ _ (by simpa using hc)]
    simp
  · have hS := invFreq_sum_pos masks 7 (by norm_num) hall
    unfold invFreqWeights
    rw [list_sum_map_div]
    exact div_self (ne_of_gt hS)

/-- C1 witness: the concrete stack [0,1,2,3,4,5,6,6] contains all seven
labels; its weight vector has length 7, entry 6 is (1/2) / (6 + 1/2),
and the weights sum to 1. -/
theorem C1_witness :
    (get_class_weights [0, 1, 2, 3, 4, 5, 6, 6]).length = 7 ∧
    (∀ c, c < 7 → (get_class_weights [0, 1, 2, 3, 4, 5, 6, 6]).getD c 0 =
      (1 / (([0, 1, 2, 3, 4, 5, 6, 6] : List ℕ).count c : ℚ)) /
        ((List.range 7).map fun k =>
          1 / (([0, 1, 2, 3, 4, 5, 6, 6] : List ℕ).count k : ℚ)).sum) ∧
    (get_class_weights [0, 1, 2, 3, 4, 5, 6, 6]).sum = 1 :=
  C1_class_weights_inverse_frequency [0, 1, 2, 3, 4, 5, 6, 6]
    (by decide) (by decide)

/-- C9: `get_class_weights` returns one weight per distinct label value
actually present (`np.unique` with `return_counts`): the result's length
is the number of distinct values, so when some label below 7 is absent
from a stack whose values all lie below 7, the vector has fewer than
seven entries and can no longer be indexed by all seven class labels. -/
theorem C9_class_weights_missing_label (masks : List ℕ)
    (hlt : ∀ v ∈ masks, v < 7) (c : ℕ) (hc : c < 7) (habs : c ∉ masks) :
    (get_class_weights masks).length = masks.toFinset.card ∧
    masks.toFinset.card < 7 := by
  constructor
  · unfold get_class_weights npUnique
    simp [Finset.length_sort]
  · have hsub : masks.toFinset ⊆ Finset.range 7 := by
      intro x hx
      exact Finset.mem_range.mpr (hlt x (List.mem_toFinset.mp hx))
    have hss : masks.toFinset ⊂ Finset.range 7 :=
      ⟨hsub, fun hsup => habs (List.mem_toFinset.mp (hsup (Finset.mem_range.mpr hc)))⟩
    simpa using Finset.card_lt_card hss

/-- C9 witness: the stack [1,1,2] misses label 0; its weight vector has
2 < 7 entries. -/
theorem C9_witness :
    (get_class_weights [1, 1, 2]).length = ([1, 1, 2] : List ℕ).toFinset.card ∧
    ([1, 1, 2] : List ℕ).toFinset.card < 7 :=
  C9_class_weights_missing_label [1, 1, 2] (by decide) 0 (by decide) (by decide)

/-- C10: the denominator `_max - _min` that `get_mean_std` divides by is
nonzero exactly when the (nonempty) image stack holds two distinct pixel
values; on a constant stack the scaling divides by zero. -/
theorem C10_mean_std_divides_by_zero_on_constant_stack (pixels : List ℕ)
    (hne : pixels ≠ []) :
    ((∃ a ∈ pixels, ∃ b ∈ pixels, a ≠ b) → minmax_denom pixels ≠ 0) ∧
    ((∀ a ∈ pixels, ∀ b ∈ pixels, a = b) → minmax_denom pixels = 0) := by
  constructor
  · rintro ⟨a, ha, b, hb, hab⟩ hzero
    have heq : (listMax pixels : ℚ) = (listMin pixels : ℚ) := by
      have := sub_eq_zero.mp hzero
      exact this
    have hmm : listMax pixels = listMin pixels := by exact_mod_cast heq
    have ha1 : a = listMin pixels :=
      le_antisymm (hmm ▸ le_listMax ha) (listMin_le ha)
    have hb1 : b = listMin pixels :=
      le_antisymm (hmm ▸ le_listMax hb) (listMin_le hb)
    exact hab (ha1.trans hb1.symm)
  · intro hconst
    have hmm : listMax pixels = listMin pixels :=
      hconst _ (listMax_mem hne) _ (listMin_mem hne)
    unfold minmax_denom
    rw [hmm, sub_self]

/-- C10 witness: the stack [3,5] has two distinct values, so the
denominator is nonzero there; the theorem also applies to show the
constant stack direction at the same input vacuously. -/
theorem C10_witness :
    ((∃ a ∈ ([3, 5] : List ℕ), ∃ b ∈ ([3, 5] : List ℕ), a ≠ b) →
      minmax_denom [3, 5] ≠ 0) ∧
    ((∀ a ∈ ([3, 5] : List ℕ), ∀ b ∈ ([3, 5] : List ℕ), a = b) →
      minmax_denom [3, 5] = 0) :=
  C10_mean_std_divides_by_zero_on_constant_stack [3, 5] (by decide)

/-! ## Notebook constants (cells defining the model/dino specs) -/

/-- DINOv2 patch edge in pixels. -/
def patch_size : ℕ := 14

/-- Number of patches per image edge. -/
def num_patches : ℕ := 30

/-- Dino input image size: `patch_size * num_patches`. -/
def input_size : ℕ := patch_size * num_patches

/-- Feature size of `dinov2_vits14_reg`. -/
def feature_dim : ℕ := 384

/-- Number of ground-truth classes. -/
def num_classes : ℕ := 7

/-! ## Interpolation: `F.interpolate` and torchvision `resize` -/

/-- Clamp an integer pixel index into `[0, n-1]` (border replication;
negative indices go to 0 via `Int.toNat`). -/
def clampIdx (n : ℕ) (z : ℤ) : ℕ := min z.toNat (n - 1)

/-- Pixel read with clamped indices, `d` for a malformed row. -/
def pixAt {α : Type} (d : α) (g : Grid α) (r c : ℤ) : α :=
  (g.getD (clampIdx (gridH g) r) []).getD (clampIdx (gridW g) c) d

/-- Source coordinate of output index `i` when `align_corners=False`:
`(i + 0.5) * inSz / outSz - 0.5`. -/
def srcCoord (inSz outSz : ℕ) (i : ℕ) : ℚ :=
  ((i : ℚ) + 1 / 2) * (inSz : ℚ) / (outSz : ℚ) - 1 / 2

/-- Source coordinate of output index `i` when `align_corners=True`. -/
def srcCoordAligned (inSz outSz : ℕ) (i : ℕ) : ℚ :=
  (i : ℚ) * ((inSz : ℚ) - 1) / ((outSz : ℚ) - 1)

/-- Bilinear sample of a grid at a fractional coordinate. -/
def bilinearAt (g : Grid ℚ) (y x : ℚ) : ℚ :=
  let y0 : ℤ := Rat.floor y
  let x0 : ℤ := Rat.floor x
  let fy : ℚ := y - (y0 : ℚ)
  let fx : ℚ := x - (x0 : ℚ)
  (1 - fy) * ((1 - fx) * pixAt 0 g y0 x0 + fx * pixAt 0 g y0 (x0 + 1)) +
    fy * ((1 - fx) * pixAt 0 g (y0 + 1) x0 + fx * pixAt 0 g (y0 + 1) (x0 + 1))

/-- Bilinear resampling with `align_corners=False`. -/
def interpBilinear (outH outW : ℕ) (g : Grid ℚ) : Grid ℚ :=
  (List.range outH).map fun i =>
    (List.range outW).map fun j =>
      bilinearAt g (srcCoord (gridH g) outH i) (srcCoord (gridW g) outW j)

/-- Bilinear resampling with `align_corners=True`. -/
def interpBilinearAligned (outH outW : ℕ) (g : Grid ℚ) : Grid ℚ :=
  (List.range outH).map fun i =>
    (List.range outW).map fun j =>
      bilinearAt g (srcCoordAligned (gridH g) outH i) (srcCoordAligned (gridW g) outW j)

/-- Source index for `nearest-exact`: `floor((i + 0.5) * inSz / outSz)`,
clamped into range. -/
def srcIdxNE (inSz outSz i : ℕ) : ℕ := min ((2 * i + 1) * inSz / (2 * outSz)) (inSz - 1)

/-- Resampling in `NEAREST_EXACT` mode: every output pixel copies one
input pixel. -/
def interpNearestExact {α : Type} (d : α) (outH outW : ℕ) (g : Grid α) : Grid α :=
  (List.range outH).map fun i =>
    (List.range outW).map fun j =>
      (g.getD (srcIdxNE (gridH g) outH i) []).getD (srcIdxNE (gridW g) outW j) d

/-- Interpolation modes the notebook uses. -/
inductive InterpMode where
  | bilinear
  | nearest_exact

/-- `torch.nn.functional.interpolate` with an integer `size` (the output
is `size × size`), a mode and `align_corners`. -/
def F_interpolate : InterpMode → Bool → ℕ → Grid ℚ → Grid ℚ
  | .bilinear, false, size, g => interpBilinear size size g
  | .bilinear, true, size, g => interpBilinearAligned size size g
  | .nearest_exact, _, size, g => interpNearestExact 0 size size g

/-- torchvision output dims for an integer `size`: the smaller edge
becomes `size`, the other keeps the aspect ratio (truncating like
`int(...)`). -/
def tvResizeDims (size h w : ℕ) : ℕ × ℕ :=
  if h ≤ w then (size, size * w / h) else (size * h / w, size)

/-- `tv_transforms2.functional.resize(image, size)`: bilinear,
idealised over exact rationals (antialias and uint8 rounding dropped;
no claim depends on interpolated values). -/
def tvResizeBilinear (size : ℕ) (g : Grid ℚ) : Grid ℚ :=
  interpBilinear (tvResizeDims size (gridH g) (gridW g)).1
    (tvResizeDims size (gridH g) (gridW g)).2 g

/-- `tv_transforms2.functional.resize(mask, size, NEAREST_EXACT, antialias=False)`. -/
def tvResizeNearestExact (size : ℕ) (g : Grid ℕ) : Grid ℕ :=
  interpNearestExact 0 (tvResizeDims size (gridH g) (gridW g)).1
    (tvResizeDims size (gridH g) (gridW g)).2 g

/-! ## `TiffDataset.apply_transform` and the dataset itself -/

/-- `tv_transforms2.functional.normalize` on one value: subtract the
mean, divide by the std. -/
def tvNormalize {α : Type} [Field α] (mean std x : α) : α := (x - mean) / std

/-- Image path of `apply_transform`: resize, `to_dtype(float32, scale=True)`
(division by 255 for uint8 input), then normalize. One channel is
modelled; `to_rgb=True` repeats it three times unchanged. -/
def apply_transform_image {α : Type} [Field α] (mean std : α) (size : ℕ) (img : Grid ℕ) : Grid α :=
  (tvResizeBilinear size (natGridQ img)).map
    (List.map fun q => tvNormalize mean std ((q / 255 : ℚ) : α))

/-- Mask path of `apply_transform`: NEAREST_EXACT resize; the cast to
long (`scale=False`) and the channel squeeze leave values unchanged. -/
def apply_transform_mask (size : ℕ) (m : Grid ℕ) : Grid ℕ := tvResizeNearestExact size m

/-- The assertion of `apply_transform`:
`torch.isin(torch.unique(mask), torch.arange(7)).all()`, i.e. every
distinct value of the transformed mask is one of 0..6. -/
def maskAssert (m : Grid ℕ) : Bool :=
  (npUnique (gridVals m)).all fun v => decide (v < 7)

/-- The dataset state: image and mask stacks, the target resolution and
the normalization statistics (`test_dataset` overwrites the latter). -/
structure TiffDataset (α : Type) where
  images : List (Grid ℕ)
  gt_masks : List (Grid ℕ)
  input_size : ℕ
  train : Bool
  mean : α
  std : α

/-- `TiffDataset.__init__`: stores the stacks and computes the
normalization statistics from the image stack; `sqrtFn` carries the
square root of the variance into the value field (numpy's `std`:
`Real.sqrt` over the reals). -/
def TiffDataset.init {α : Type} [Field α] (sqrtFn : ℚ → α)
    (images gt_masks : List (Grid ℕ)) (size : ℕ) : TiffDataset α :=
  { images := images
    gt_masks := gt_masks
    input_size := size
    train := true
    mean := ((get_mean_std_sq (stackVals images)).1 : α)
    std := sqrtFn (get_mean_std_sq (stackVals images)).2 }

/-- `TiffDataset.__getitem__`: applies the transform to the indexed
image/mask pair. -/
def TiffDataset.getitem {α : Type} [Field α] (ds : TiffDataset α) (index : ℕ) :
    Grid α × Grid ℕ :=
  (apply_transform_image ds.mean ds.std ds.input_size (ds.images.getD index []),
   apply_transform_mask ds.input_size (ds.gt_masks.getD index []))

/-! ## Dimension lemmas for the resamplers -/

lemma gridH_map_rows {α β : Type} (f : List α → List β) (g : Grid α) :
    gridH (g.map f) = gridH g := by
  simp [gridH]

lemma gridW_map_inner {α β : Type} (f : α → β) (g : Grid α) :
    gridW (g.map (List.map f)) = gridW g := by
  cases g with
  | nil => rfl
  | cons r t => simp [gridW]

lemma interpBilinear_gridH (outH outW : ℕ) (g : Grid ℚ) :
    gridH (interpBilinear outH outW g) = outH := by
  simp [interpBilinear, gridH]

lemma interpBilinear_gridW (outH outW : ℕ) (hH : 0 < outH) (g : Grid ℚ) :
    gridW (interpBilinear outH outW g) = outW := by
  obtain ⟨n, rfl⟩ : ∃ n, outH = n + 1 := ⟨outH - 1, by omega⟩
  simp [interpBilinear, gridW, List.range_succ_eq_map]

lemma interpNearestExact_gridH {α : Type} (d : α) (outH outW : ℕ) (g : Grid α) :
    gridH (interpNearestExact d outH outW g) = outH := by
  simp [interpNearestExact, gridH]

lemma interpNearestExact_gridW {α : Type} (d : α) (outH outW : ℕ) (hH : 0 < outH)
    (g : Grid α) : gridW (interpNearestExact d outH outW g) = outW := by
  obtain ⟨n, rfl⟩ : ∃ n, outH = n + 1 := ⟨outH - 1, by omega⟩
  simp [interpNearestExact, gridW, List.range_succ_eq_map]

lemma tvResizeDims_square (size h : ℕ) (hh : 0 < h) :
    tvResizeDims size h h = (size, size) := by
  simp [tvResizeDims, Nat.mul_div_cancel _ hh]

lemma natGridQ_gridH (g : Grid ℕ) : gridH (natGridQ g) = gridH g := by
  simp [natGridQ, gridH]

lemma natGridQ_gridW (g : Grid ℕ) : gridW (natGridQ g) = gridW g := by
  simpa [natGridQ] using gridW_map_inner (Nat.cast : ℕ → ℚ) g

/-! ## Claim C3 -/

/-- C3: the input resolution is `patch_size * num_patches = 14 * 30 = 420`
pixels, divisible by the 14-pixel patch size, and for a dataset built at
that resolution every yielded (image, mask) pair is a square 420 × 420
raster (the stack's rasters are square, 800 × 800 in the data). -/
theorem C3_resized_to_fixed_square_resolution {α : Type} [Field α] (ds : TiffDataset α)
    (hsz : ds.input_size = input_size) (index : ℕ)
    (himg : gridH (ds.images.getD index []) = gridW (ds.images.getD index []))
    (himg0 : 0 < gridH (ds.images.getD index []))
    (hmask : gridH (ds.gt_masks.getD index []) = gridW (ds.gt_masks.getD index []))
    (hmask0 : 0 < gridH (ds.gt_masks.getD index [])) :
    input_size = patch_size * num_patches ∧ input_size = 420 ∧
    input_size % patch_size = 0 ∧
    gridH (ds.getitem index).1 = 420 ∧ gridW (ds.getitem index).1 = 420 ∧
    gridH (ds.getitem index).2 = 420 ∧ gridW (ds.getitem index).2 = 420 := by
  have hpos : 0 < ds.input_size := by rw [hsz]; decide
  have hsqi := tvResizeDims_square ds.input_size (gridH (ds.images.getD index [])) himg0
  have hsqm := tvResizeDims_square ds.input_size (gridH (ds.gt_masks.getD index [])) hmask0
  refine ⟨rfl, rfl, by decide, ?_, ?_, ?_, ?_⟩
  · simp only [TiffDataset.getitem, apply_transform_image, tvResizeBilinear,
      natGridQ_gridH, natGridQ_gridW, ← himg, hsqi, gridH_map_rows,
      interpBilinear_gridH]
    rw [hsz]; decide
  · simp only [TiffDataset.getitem, apply_transform_image, tvResizeBilinear,
      natGridQ_gridH, natGridQ_gridW, ← himg, hsqi, gridW_map_inner,
      interpBilinear_gridW ds.input_size ds.input_size hpos]
    rw [hsz]; decide
  · simp only [TiffDataset.getitem, apply_transform_mask, tvResizeNearestExact,
      ← hmask, hsqm, interpNearestExact_gridH]
    rw [hsz]; decide
  · simp only [TiffDataset.getitem, apply_transform_mask, tvResizeNearestExact,
      ← hmask, hsqm, interpNearestExact_gridW (0 : ℕ) ds.input_size ds.input_size hpos]
    rw [hsz]; decide

/-- C3 witness: a dataset over a single 1 × 1 image and mask, built at
`input_size`, yields a 420 × 420 pair. -/
theorem C3_witness :
    gridH ((TiffDataset.init (α := ℚ) (fun q => q) [[[0]]] [[[0]]] input_size).getitem 0).1 = 420 ∧
    gridW ((TiffDataset.init (α := ℚ) (fun q => q) [[[0]]] [[[0]]] input_size).getitem 0).1 = 420 ∧
    gridH ((TiffDataset.init (α := ℚ) (fun q => q) [[[0]]] [[[0]]] input_size).getitem 0).2 = 420 ∧
    gridW ((TiffDataset.init (α := ℚ) (fun q => q) [[[0]]] [[[0]]] input_size).getitem 0).2 = 420 := by
  have h := C3_resized_to_fixed_square_resolution
    (TiffDataset.init (α := ℚ) (fun q => q) [[[0]]] [[[0]]] input_size)
    rfl 0 (by decide) (by decide) (by decide) (by decide)
  exact ⟨h.2.2.2.1, h.2.2.2.2.1, h.2.2.2.2.2.1, h.2.2.2.2.2.2⟩

/-! ## Claim C2 -/

lemma srcIdxNE_lt {inSz : ℕ} (hin : 0 < inSz) (outSz i : ℕ) :
    srcIdxNE inSz outSz i < inSz :=
  lt_of_le_of_lt (min_le_right _ _) (Nat.sub_lt hin one_pos)

/-- Every pixel of a `nearest-exact` resampling copies a pixel of the
(nonempty, rectangular) input grid. -/
lemma interpNearestExact_val_mem {α : Type} (d : α) (g : Grid α)
    (hH : 0 < gridH g) (hW : 0 < gridW g) (hrect : Rectangular g)
    (outH outW : ℕ) :
    ∀ v ∈ gridVals (interpNearestExact d outH outW g), v ∈ gridVals g := by
  intro v hv
  unfold gridVals interpNearestExact at hv
  rcases List.mem_flatten.mp hv with ⟨row, hrow, hvrow⟩
  rcases List.mem_map.mp hrow with ⟨i, _, rfl⟩
  rcases List.mem_map.mp hvrow with ⟨j, _, rfl⟩
  have hr : srcIdxNE (gridH g) outH i < gridH g := srcIdxNE_lt hH outH i
  have hc : srcIdxNE (gridW g) outW j < gridW g := srcIdxNE_lt hW outW j
  rw [List.getD_eq_getElem g [] hr]
  have hrowmem : g[srcIdxNE (gridH g) outH i] ∈ g := List.getElem_mem hr
  have hlen : (g[srcIdxNE (gridH g) outH i]).length = gridW g := hrect _ hrowmem
  rw [List.getD_eq_getElem _ d (by rw [hlen]; exact hc)]
  exact List.mem_flatten.mpr ⟨_, hrowmem, List.getElem_mem _⟩

/-- C2: when a raw mask (nonempty, rectangular) carries only labels
0..6, its `apply_transform` output carries only values already present
in the raw mask, in particular only labels 0..6, and the assertion
`torch.isin(torch.unique(mask), torch.arange(7)).all()` holds:
NEAREST_EXACT resampling introduces no new label values. -/
theorem C2_mask_labels_in_class_range (m : Grid ℕ) (size : ℕ)
    (hH : 0 < gridH m) (hW : 0 < gridW m) (hrect : Rectangular m)
    (hvals : ∀ v ∈ gridVals m, v < 7) :
    (∀ v ∈ gridVals (apply_transform_mask size m), v ∈ gridVals m) ∧
    (∀ v ∈ gridVals (apply_transform_mask size m), v < 7) ∧
    maskAssert (apply_transform_mask size m) = true := by
  have hmem : ∀ v ∈ gridVals (apply_transform_mask size m), v ∈ gridVals m := by
    intro v hv
    exact interpNearestExact_val_mem 0 m hH hW hrect _ _ v hv
  have hlt : ∀ v ∈ gridVals (apply_transform_mask size m), v < 7 :=
    fun v hv => hvals v (hmem v hv)
  refine ⟨hmem, hlt, ?_⟩
  unfold maskAssert
  rw [List.all_eq_true]
  intro v hv
  exact decide_eq_true (hlt v (mem_npUnique.mp hv))

/-- C2 witness: the 2 × 2 mask [[0,1],[2,3]] resized to `input_size`
keeps its values inside 0..6 and passes the assertion. -/
theorem C2_witness :
    (∀ v ∈ gridVals (apply_transform_mask input_size [[0, 1], [2, 3]]), v < 7) ∧
    maskAssert (apply_transform_mask input_size [[0, 1], [2, 3]]) = true :=
  ⟨(C2_mask_labels_in_class_range [[0, 1], [2, 3]] input_size (by decide) (by decide)
      (by unfold Rectangular; decide) (by decide)).2.1,
   (C2_mask_labels_in_class_range [[0, 1], [2, 3]] input_size (by decide) (by decide)
      (by unfold Rectangular; decide) (by decide)).2.2⟩

/-! ## Claim C7 -/

lemma qVar_nonneg (l : List ℚ) : 0 ≤ qVar l := by
  unfold qVar
  apply div_nonneg
  · apply List.sum_nonneg
    intro x hx
    rcases List.mem_map.mp hx with ⟨y, _, rfl⟩
    positivity
  · positivity

/-- C7: a training dataset's stored statistics are the mean and the
standard deviation (the nonnegative real whose square is the variance)
of the min-max-scaled image stack `(images - min) / (max - min)`, and
every image `__getitem__` yields is the resized, `[0,1]`-scaled image
normalized by subtracting that mean and dividing by that std. -/
theorem C7_mean_std_and_normalization (images gt_masks : List (Grid ℕ))
    (size index : ℕ) :
    (TiffDataset.init (fun q : ℚ => Real.sqrt (q : ℝ)) images gt_masks size).mean
        = ((qMean (scaled_imgs (stackVals images)) : ℚ) : ℝ) ∧
    0 ≤ (TiffDataset.init (fun q : ℚ => Real.sqrt (q : ℝ)) images gt_masks size).std ∧
    ((TiffDataset.init (fun q : ℚ => Real.sqrt (q : ℝ)) images gt_masks size).std) ^ 2
        = ((qVar (scaled_imgs (stackVals images)) : ℚ) : ℝ) ∧
    ((TiffDataset.init (fun q : ℚ => Real.sqrt (q : ℝ)) images gt_masks size).getitem index).1
        = (tvResizeBilinear size (natGridQ (images.getD index []))).map
            (List.map fun q =>
              (((q / 255 : ℚ) : ℝ) - ((qMean (scaled_imgs (stackVals images)) : ℚ) : ℝ))
                / Real.sqrt ((qVar (scaled_imgs (stackVals images)) : ℚ) : ℝ)) := by
  refine ⟨rfl, Real.sqrt_nonneg _, ?_, rfl⟩
  exact Real.sq_sqrt (by exact_mod_cast qVar_nonneg (scaled_imgs (stackVals images)))

/-! ## Confusion-matrix statistics (`metrics.get_stats`) and the metric formulas -/

/-- Confusion counts of one (image, class) cell. -/
structure Stat4 where
  tp : ℕ
  fp : ℕ
  fn : ℕ
  tn : ℕ

/-- Modelled from the spec: the notebook imports a course-local
`metrics` module that is not in the repository; the spec points at the
Segmentation Models metrics package, whose
`get_stats(..., mode="multiclass", num_classes=n)` counts, per class
`c`, the pixels with `pred = gt = c` (tp), `pred = c ≠ gt` (fp),
`gt = c ≠ pred` (fn) and neither equal to `c` (tn). -/
def statOf (pairs : List (ℕ × ℕ)) (c : ℕ) : Stat4 :=
  { tp := pairs.countP fun p => p.1 == c && p.2 == c
    fp := pairs.countP fun p => p.1 == c && p.2 != c
    fn := pairs.countP fun p => p.1 != c && p.2 == c
    tn := pairs.countP fun p => p.1 != c && p.2 != c }

/-- Modelled from the spec: `metrics.get_stats` on one image, one
`Stat4` per class `0 .. n-1`, pairing prediction and ground truth
pixelwise. -/
def get_stats (pred gt : Grid ℕ) (n : ℕ) : List Stat4 :=
  (List.range n).map (statOf ((gridVals pred).zip (gridVals gt)))

/-- Modelled from the spec: per-cell accuracy `(tp + tn) / (tp + fp + fn + tn)`
(`metrics.accuracy` with `reduction=None`). -/
def accuracy (s : Stat4) : ℚ := (s.tp + s.tn : ℕ) / ((s.tp + s.fp + s.fn + s.tn : ℕ) : ℚ)

/-- Modelled from the spec: per-cell F1 `2·tp / (2·tp + fp + fn)`. -/
def f1_score (s : Stat4) : ℚ := (2 * s.tp : ℕ) / ((2 * s.tp + s.fp + s.fn : ℕ) : ℚ)

/-- Modelled from the spec: per-cell IoU `tp / (tp + fp + fn)`. -/
def iou_score (s : Stat4) : ℚ := (s.tp : ℕ) / ((s.tp + s.fp + s.fn : ℕ) : ℚ)

/-- `.mean(dim=0)` over an images × classes table: the per-class mean
over images. -/
def meanDim0 (numCls : ℕ) (rows : List (List ℚ)) : List ℚ :=
  (List.range numCls).map fun c => (rows.map fun r => r.getD c 0).sum / rows.length

/-- The slicing loop `for i in range(0, len(l), num_batches)` of the
metrics cell: successive slices `l[i : i + B]` (empty for `B = 0`,
where the python `range` would raise). -/
def pyChunks {α : Type} (B : ℕ) (l : List α) : List (List α) :=
  if h : B = 0 ∨ l.length = 0 then [] else l.take B :: pyChunks B (l.drop B)
termination_by l.length
decreasing_by
  push_neg at h
  simp only [List.length_drop]
  omega

lemma pyChunks_nil {α : Type} (B : ℕ) : pyChunks B ([] : List α) = [] := by
  rw [pyChunks]
  simp

lemma pyChunks_cons {α : Type} (B : ℕ) (hB : 0 < B) (l : List α) (hl : l ≠ []) :
    pyChunks B l = l.take B :: pyChunks B (l.drop B) := by
  rw [pyChunks]
  rw [dif_neg (by push_neg; exact ⟨by omega, fun h0 => hl (List.length_eq_zero.mp h0)⟩)]

lemma pyChunks_length {α : Type} (B : ℕ) (hB : 0 < B) :
    ∀ (E : ℕ) (l : List α), l.length = E * B → (pyChunks B l).length = E := by
  intro E
  induction E with
  | zero =>
    intro l hl
    have hnil : l = [] := List.length_eq_zero.mp (by simpa using hl)
    rw [hnil, pyChunks_nil]
    rfl
  | succ n ih =>
    intro l hl
    have harith : (n + 1) * B = n * B + B := by ring
    have hlne : l ≠ [] := by
      intro hn
      rw [hn] at hl
      simp at hl
      omega
    rw [pyChunks_cons B hB l hlne]
    simp only [List.length_cons]
    rw [ih (l.drop B) (by simp only [List.length_drop, hl, harith]; omega)]

lemma pyChunks_getD {α : Type} (B : ℕ) (hB : 0 < B) :
    ∀ (k : ℕ) (l : List α), k * B < l.length →
      (pyChunks B l).getD k [] = (l.drop (k * B)).take B := by
  intro k
  induction k with
  | zero =>
    intro l hlen
    have hlne : l ≠ [] := by
      intro hn
      rw [hn] at hlen
      simp at hlen
    rw [pyChunks_cons B hB l hlne]
    simp
  | succ n ih =>
    intro l hlen
    have harith : (n + 1) * B = n * B + B := by ring
    have hlne : l ≠ [] := by
      intro hn
      rw [hn] at hlen
      simp at hlen
    rw [pyChunks_cons B hB l hlne]
    simp only [List.getD_cons_succ]
    rw [ih (l.drop B) (by simp only [List.length_drop]; omega)]
    rw [List.drop_drop]
    rw [show B + n * B = (n + 1) * B by ring]

/-! ## Claim C6: the metrics cell -/

/-- The metrics cell for one metric: slice the per-batch statistics
(`batches × images × classes`) into groups of `num_batches`, concatenate
each group (`torch.concat` along the image dimension), apply the metric
elementwise (`reduction=None`) and average over images (`.mean(dim=0)`). -/
def calc_metrics (m : Stat4 → ℚ) (numCls B : ℕ)
    (stats : List (List (List Stat4))) : List (List ℚ) :=
  (pyChunks B stats).map fun ep => meanDim0 numCls (ep.flatten.map (List.map m))

/-- The `accs` rows computed after training. -/
def accs (B : ℕ) (stats : List (List (List Stat4))) : List (List ℚ) :=
  calc_metrics accuracy num_classes B stats

/-- The `f1_scores` rows computed after training. -/
def f1_scores (B : ℕ) (stats : List (List (List Stat4))) : List (List ℚ) :=
  calc_metrics f1_score num_classes B stats

/-- The `ious` rows computed after training. -/
def ious (B : ℕ) (stats : List (List (List Stat4))) : List (List ℚ) :=
  calc_metrics iou_score num_classes B stats

lemma calc_metrics_spec (m : Stat4 → ℚ) (numCls B E : ℕ) (hB : 0 < B)
    (stats : List (List (List Stat4))) (hlen : stats.length = E * B) :
    (calc_metrics m numCls B stats).length = E ∧
    ∀ k, k < E → (calc_metrics m numCls B stats).getD k [] =
      meanDim0 numCls ((((stats.drop (k * B)).take B).flatten).map (List.map m)) := by
  have hplen : (pyChunks B stats).length = E := pyChunks_length B hB E stats hlen
  constructor
  · unfold calc_metrics
    rw [List.length_map, hplen]
  · intro k hk
    have hkB : k * B < stats.length := by
      rw [hlen]
      exact Nat.mul_lt_mul_of_lt_of_le hk (le_refl B) hB
    have hkp : k < (pyChunks B stats).length := by rw [hplen]; exact hk
    unfold calc_metrics
    rw [List.getD_eq_getElem _ _ (by rw [List.length_map]; exact hkp)]
    rw [List.getElem_map]
    have hcell : (pyChunks B stats)[k] = (stats.drop (k * B)).take B := by
      have h1 := pyChunks_getD B hB k stats hkB
      rwa [List.getD_eq_getElem _ _ hkp] at h1
    rw [hcell]

/-- C6: the training metric computation partitions the per-batch
confusion statistics into consecutive groups of `num_batches` in epoch
order, concatenates each group along the image dimension, and each
epoch's per-class accuracy, F1 and IoU row is the per-class mean over
images of the per-image per-class metric of those counts. -/
theorem C6_epoch_metrics_from_grouped_stats (B E : ℕ) (hB : 0 < B)
    (stats : List (List (List Stat4))) (hlen : stats.length = E * B) :
    ((accs B stats).length = E ∧ (f1_scores B stats).length = E ∧
      (ious B stats).length = E) ∧
    ∀ k, k < E →
      (accs B stats).getD k [] =
        meanDim0 num_classes ((((stats.drop (k * B)).take B).flatten).map (List.map accuracy)) ∧
      (f1_scores B stats).getD k [] =
        meanDim0 num_classes ((((stats.drop (k * B)).take B).flatten).map (List.map f1_score)) ∧
      (ious B stats).getD k [] =
        meanDim0 num_classes ((((stats.drop (k * B)).take B).flatten).map (List.map iou_score)) := by
  have ha := calc_metrics_spec accuracy num_classes B E hB stats hlen
  have hf := calc_metrics_spec f1_score num_classes B E hB stats hlen
  have hi := calc_metrics_spec iou_score num_classes B E hB stats hlen
  exact ⟨⟨ha.1, hf.1, hi.1⟩, fun k hk => ⟨ha.2 k hk, hf.2 k hk, hi.2 k hk⟩⟩

/-- C6 witness: two epochs of one batch each, one image per batch,
one class: both epoch rows come out as the stated per-image means. -/
theorem C6_witness :
    ((accs 1 [[[⟨1, 0, 0, 0⟩]], [[⟨0, 1, 0, 0⟩]]]).length = 2 ∧
      (f1_scores 1 [[[⟨1, 0, 0, 0⟩]], [[⟨0, 1, 0, 0⟩]]]).length = 2 ∧
      (ious 1 [[[⟨1, 0, 0, 0⟩]], [[⟨0, 1, 0, 0⟩]]]).length = 2) ∧
    ∀ k, k < 2 →
      (accs 1 [[[⟨1, 0, 0, 0⟩]], [[⟨0, 1, 0, 0⟩]]]).getD k [] =
        meanDim0 num_classes (((([[[⟨1, 0, 0, 0⟩]], [[⟨0, 1, 0, 0⟩]]].drop (k * 1)).take 1).flatten).map (List.map accuracy)) ∧
      (f1_scores 1 [[[⟨1, 0, 0, 0⟩]], [[⟨0, 1, 0, 0⟩]]]).getD k [] =
        meanDim0 num_classes (((([[[⟨1, 0, 0, 0⟩]], [[⟨0, 1, 0, 0⟩]]].drop (k * 1)).take 1).flatten).map (List.map f1_score)) ∧
      (ious 1 [[[⟨1, 0, 0, 0⟩]], [[⟨0, 1, 0, 0⟩]]]).getD k [] =
        meanDim0 num_classes (((([[[⟨1, 0, 0, 0⟩]], [[⟨0, 1, 0, 0⟩]]].drop (k * 1)).take 1).flatten).map (List.map iou_score)) :=
  C6_epoch_metrics_from_grouped_stats 1 2 (by decide)
    [[[⟨1, 0, 0, 0⟩]], [[⟨0, 1, 0, 0⟩]]] (by decide)

/-! ## The loop-body batch computation (claims C5, C8) -/

/-- Index scan for the first maximum. -/
def argmaxAux : List ℚ → ℕ → ℕ → ℚ → ℕ
  | [], _, best, _ => best
  | x :: t, i, best, bv =>
    if bv < x then argmaxAux t (i + 1) i x else argmaxAux t (i + 1) best bv

/-- `torch.argmax` over a class-score list: index of the first maximum. -/
def argmaxIdx : List ℚ → ℕ
  | [] => 0
  | x :: t => argmaxAux t 1 0 x

/-- Class scores at one pixel: one value per channel grid. -/
def channelsAt (out : List (Grid ℚ)) (i j : ℕ) : List ℚ :=
  out.map fun ch => (ch.getD i []).getD j 0

/-- `out.argmax(dim=1)` on one image's channel stack. -/
def argmaxGrid (out : List (Grid ℚ)) : Grid ℕ :=
  (List.range (gridH (out.headD []))).map fun i =>
    (List.range (gridW (out.headD []))).map fun j => argmaxIdx (channelsAt out i j)

/-- Pixel coordinates of a grid, row-major. -/
def pixelIndices {α : Type} (g : Grid α) : List (ℕ × ℕ) :=
  ((List.range (gridH g)).map fun i => (List.range (gridW g)).map fun j => (i, j)).flatten

/-- Cast a rational grid into a field (exact model of the float casts). -/
def castGridQ {α : Type} [DivisionRing α] (g : Grid ℚ) : Grid α :=
  g.map (List.map (Rat.cast : ℚ → α))

/-- Modelled from the spec: the loss cell is a fill-in stub
(`loss_fn = ...  # use CrossEntropyLoss with the weight param equals to
the class weights`). Numerator of `CrossEntropyLoss(weight=w)` on one
image: the sum over pixels of `w_t * (log (sum_k exp z_k) - z_t)` for
target class `t` and class scores `z`; `lg`/`ex` carry log and exp. -/
def ceNum {α : Type} [Field α] (lg ex : α → α) (w : List α)
    (logits : List (Grid α)) (target : Grid ℕ) : α :=
  ((pixelIndices target).map fun p =>
    let z := logits.map fun ch => (ch.getD p.1 []).getD p.2 0
    let t := (target.getD p.1 []).getD p.2 0
    w.getD t 0 * (lg (z.map ex).sum - z.getD t 0)).sum

/-- Modelled from the spec: weight normalizer of `CrossEntropyLoss`'s
mean reduction on one image, the sum over pixels of the target's weight. -/
def ceDen {α : Type} [Field α] (w : List α) (target : Grid ℕ) : α :=
  ((pixelIndices target).map fun p => w.getD ((target.getD p.1 []).getD p.2 0) 0).sum

/-- Modelled from the spec: `CrossEntropyLoss(weight=w)` over a batch,
mean reduction: summed numerators over all batch pixels divided by the
summed target weights. -/
def weightedCEBatch {α : Type} [Field α] (lg ex : α → α) (w : List α)
    (outs : List (List (Grid α))) (gts : List (Grid ℕ)) : α :=
  ((outs.zip gts).map fun p => ceNum lg ex w p.1 p.2).sum /
    ((outs.zip gts).map fun p => ceDen w p.2).sum

/-- Modelled from the spec: the stub
`class_weights = torch.from_numpy(train_dataset.get_class_weights())`
(the float32 cast idealised as exact). -/
def class_weights {α : Type} [Field α] (train_gt : List (Grid ℕ)) : List α :=
  (get_class_weights (stackVals train_gt)).map fun q => (q : α)

/-- Result of one loop-body pass over a batch. -/
structure BatchResult (α : Type) where
  out_upscaled : List (List (Grid ℚ))
  loss : α
  stats : List (List Stat4)

/-- One loop-body pass, shared by the training loop and the evaluation
stub: the head's logits `outs` (per image a stack of class-channel
grids at patch resolution) are upsampled by
`F.interpolate(out, size=input_size, mode="bilinear", align_corners=False)`;
the loss `loss_fn(out_upscaled, gt_masks)` and the statistics
`metrics.get_stats(out_upscaled.argmax(dim=1), gt_masks, ...)` are both
computed from the upsampled logits. -/
def process_batch {α : Type} [Field α] (lg ex : α → α) (train_gt : List (Grid ℕ))
    (outs : List (List (Grid ℚ))) (gts : List (Grid ℕ)) : BatchResult α :=
  let ups := outs.map fun chans => chans.map (F_interpolate .bilinear false input_size)
  { out_upscaled := ups
    loss := weightedCEBatch lg ex (class_weights train_gt) (ups.map (List.map castGridQ)) gts
    stats := (ups.zip gts).map fun p => get_stats (argmaxGrid p.1) p.2 num_classes }

/-- C5: in the loop body every image's logits are upsampled from the
patch grid (`num_patches × num_patches = 30 × 30`, the hypothesis
records the resolution the head emits) to the full `input_size = 420`
resolution by bilinear interpolation with `align_corners=False`, and
both the loss and the confusion-matrix statistics are computed from the
upsampled logits. -/
theorem C5_bilinear_upsample_before_loss_and_stats {α : Type} [Field α]
    (lg ex : α → α) (train_gt gts : List (Grid ℕ)) (outs : List (List (Grid ℚ)))
    (h30 : ∀ im ∈ outs, ∀ ch ∈ im, gridH ch = num_patches ∧ gridW ch = num_patches) :
    num_patches = 30 ∧ input_size = 420 ∧
    (process_batch lg ex train_gt outs gts).out_upscaled =
      outs.map (fun chans => chans.map (F_interpolate .bilinear false input_size)) ∧
    (∀ im ∈ (process_batch lg ex train_gt outs gts).out_upscaled, ∀ ch ∈ im,
      gridH ch = input_size ∧ gridW ch = input_size) ∧
    (process_batch lg ex train_gt outs gts).loss =
      weightedCEBatch lg ex (class_weights train_gt)
        (((process_batch lg ex train_gt outs gts).out_upscaled).map (List.map castGridQ)) gts ∧
    (process_batch lg ex train_gt outs gts).stats =
      (((process_batch lg ex train_gt outs gts).out_upscaled).zip gts).map
        (fun p => get_stats (argmaxGrid p.1) p.2 num_classes) := by
  refine ⟨rfl, rfl, rfl, ?_, rfl, rfl⟩
  intro im him ch hch
  rcases List.mem_map.mp him with ⟨im0, _, rfl⟩
  rcases List.mem_map.mp hch with ⟨ch0, _, rfl⟩
  constructor
  · exact interpBilinear_gridH input_size input_size ch0
  · exact interpBilinear_gridW input_size input_size (by decide) ch0

/-- C5 witness: a batch of one image whose single class channel is a
30 × 30 grid of zeros, at the patch resolution the hypothesis asks for. -/
theorem C5_witness :
    num_patches = 30 ∧ input_size = 420 ∧
    (process_batch (α := ℚ) id id [] [[List.replicate 30 (List.replicate 30 (0 : ℚ))]] [[[0]]]).out_upscaled =
      ([[List.replicate 30 (List.replicate 30 (0 : ℚ))]] : List (List (Grid ℚ))).map
        (fun chans => chans.map (F_interpolate .bilinear false input_size)) ∧
    (∀ im ∈ (process_batch (α := ℚ) id id [] [[List.replicate 30 (List.replicate 30 (0 : ℚ))]] [[[0]]]).out_upscaled,
      ∀ ch ∈ im, gridH ch = input_size ∧ gridW ch = input_size) ∧
    (process_batch (α := ℚ) id id [] [[List.replicate 30 (List.replicate 30 (0 : ℚ))]] [[[0]]]).loss =
      weightedCEBatch id id (class_weights [])
        (((process_batch (α := ℚ) id id [] [[List.replicate 30 (List.replicate 30 (0 : ℚ))]] [[[0]]]).out_upscaled).map
          (List.map castGridQ)) [[[0]]] ∧
    (process_batch (α := ℚ) id id [] [[List.replicate 30 (List.replicate 30 (0 : ℚ))]] [[[0]]]).stats =
      (((process_batch (α := ℚ) id id [] [[List.replicate 30 (List.replicate 30 (0 : ℚ))]] [[[0]]]).out_upscaled).zip
        [[[0]]]).map (fun p => get_stats (argmaxGrid p.1) p.2 num_classes) :=
  C5_bilinear_upsample_before_loss_and_stats id id [] [[[0]]]
    [[List.replicate 30 (List.replicate 30 (0 : ℚ))]]
    (by
      intro im him ch hch
      rcases List.mem_singleton.mp him with rfl
      rcases List.mem_singleton.mp hch with rfl
      constructor <;> decide)

/-! ## Claim C8 -/

/-- C8: the loss the loop body applies to the upsampled logits is the
class-weighted cross-entropy whose weight vector is
`train_dataset.get_class_weights()`; when the training masks contain
exactly the labels 0..6, that vector is the normalized inverse class
frequency ordered by class label, and it sums to 1. -/
theorem C8_training_loss_weighted_cross_entropy {α : Type} [Field α]
    (lg ex : α → α) (train_gt gts : List (Grid ℕ)) (outs : List (List (Grid ℚ)))
    (hall : ∀ c < 7, c ∈ stackVals train_gt)
    (hlt : ∀ v ∈ stackVals train_gt, v < 7) :
    (process_batch lg ex train_gt outs gts).loss =
      weightedCEBatch lg ex
        ((get_class_weights (stackVals train_gt)).map fun q => (q : α))
        ((outs.map fun chans => chans.map (F_interpolate .bilinear false input_size)).map
          (List.map castGridQ)) gts ∧
    class_weights (α := α) train_gt =
      (invFreqWeights (stackVals train_gt) 7).map (fun q => (q : α)) ∧
    (get_class_weights (stackVals train_gt)).sum = 1 := by
  refine ⟨rfl, ?_, ?_⟩
  · unfold class_weights
    rw [get_class_weights_of_range _ 7 hall hlt]
  · rw [get_class_weights_of_range _ 7 hall hlt]
    unfold invFreqWeights
    rw [list_sum_map_div]
    exact div_self (ne_of_gt (invFreq_sum_pos _ 7 (by norm_num) hall))

/-- C8 witness: a training stack of one 1 × 7 mask holding each label
once, with an empty batch. -/
theorem C8_witness :
    (process_batch (α := ℚ) id id [[[0, 1, 2, 3, 4, 5, 6]]] [] []).loss =
      weightedCEBatch id id
        ((get_class_weights (stackVals [[[0, 1, 2, 3, 4, 5, 6]]])).map fun q => (q : ℚ))
        ((([] : List (List (Grid ℚ))).map fun chans =>
          chans.map (F_interpolate .bilinear false input_size)).map
          (List.map castGridQ)) [] ∧
    class_weights (α := ℚ) [[[0, 1, 2, 3, 4, 5, 6]]] =
      (invFreqWeights (stackVals [[[0, 1, 2, 3, 4, 5, 6]]]) 7).map (fun q => (q : ℚ)) ∧
    (get_class_weights (stackVals [[[0, 1, 2, 3, 4, 5, 6]]])).sum = 1 :=
  C8_training_loss_weighted_cross_entropy id id [[[0, 1, 2, 3, 4, 5, 6]]] [] []
    (by decide) (by decide)

/-! ## Parameter updates of the training loop (claim C4) -/

/-- Expressions over trainable parameters: the computation graph that
`loss.backward()` differentiates. -/
inductive Expr where
  | const : ℚ → Expr
  | param : ℕ → Expr
  | add : Expr → Expr → Expr
  | mul : Expr → Expr → Expr
  | neg : Expr → Expr

/-- Forward evaluation in a parameter environment. -/
def Expr.eval (env : ℕ → ℚ) : Expr → ℚ
  | .const q => q
  | .param i => env i
  | .add a b => a.eval env + b.eval env
  | .mul a b => a.eval env * b.eval env
  | .neg a => -(a.eval env)

/-- The backward pass: partial derivative with respect to parameter `i`. -/
def Expr.grad (env : ℕ → ℚ) (i : ℕ) : Expr → ℚ
  | .const _ => 0
  | .param j => if j = i then 1 else 0
  | .add a b => a.grad env i + b.grad env i
  | .mul a b => a.grad env i * b.eval env + a.eval env * b.grad env i
  | .neg a => -(a.grad env i)

/-- Whether parameter `i` occurs in the graph. -/
def Expr.uses (i : ℕ) : Expr → Bool
  | .const _ => false
  | .param j => j == i
  | .add a b => a.uses i || b.uses i
  | .mul a b => a.uses i || b.uses i
  | .neg a => a.uses i

lemma Expr.grad_eq_zero_of_not_uses (e : Expr) (env : ℕ → ℚ) (i : ℕ)
    (h : e.uses i = false) : e.grad env i = 0 := by
  induction e with
  | const q => rfl
  | param j =>
    simp only [Expr.uses, beq_eq_false_iff_ne, ne_eq] at h
    simp [Expr.grad, h]
  | add a b iha ihb =>
    simp only [Expr.uses, Bool.or_eq_false_iff] at h
    simp [Expr.grad, iha h.1, ihb h.2]
  | mul a b iha ihb =>
    simp only [Expr.uses, Bool.or_eq_false_iff] at h
    simp [Expr.grad, iha h.1, ihb h.2]
  | neg a iha =>
    simp [Expr.grad, iha h]

/-- One training batch on the parameter vector, following the loop body:
`with torch.no_grad(): features = dinov2.get_intermediate_layers(image, ...)`
computes the features as plain values carrying no graph (`dinoForward`
returns numbers, however it reads the parameters), `headLoss` builds the
graph of `loss_fn(F.interpolate(model(features), ...), gt_masks)` over
the head's parameters, and `optim.step()` updates every parameter from
its gradient. Modelled from the spec where the optimizer cell is a stub
(Adam or AdamW over the head's parameters): `opt` is any per-parameter
update rule. -/
def train_batch_step {β : Type} (opt : ℚ → ℚ → ℚ)
    (dinoForward : (ℕ → ℚ) → β → List ℚ)
    (headLoss : List ℚ → β → Expr)
    (env : ℕ → ℚ) (batch : β) : ℕ → ℚ :=
  fun i => opt (env i) ((headLoss (dinoForward env batch) batch).grad env i)

/-- The full training loop: a fold of batch steps over the batches of
all epochs. -/
def train_run {β : Type} (opt : ℚ → ℚ → ℚ)
    (dinoForward : (ℕ → ℚ) → β → List ℚ)
    (headLoss : List ℚ → β → Expr)
    (batches : List β) (env0 : ℕ → ℚ) : ℕ → ℚ :=
  batches.foldl (train_batch_step opt dinoForward headLoss) env0

/-- C4: because the DINOv2 forward pass runs inside `torch.no_grad()`,
its output enters the head's graph as constants; for any optimizer that
leaves a parameter with zero gradient unchanged (Adam, AdamW and SGD
from zero state all do) and any head/loss graph over non-DINOv2
parameters only, every DINOv2 parameter is unchanged after the whole
training run, whatever the batches. -/
theorem C4_dino_params_unchanged_by_training {β : Type}
    (opt : ℚ → ℚ → ℚ) (hopt : ∀ p, opt p 0 = p)
    (dinoParam : ℕ → Bool)
    (dinoForward : (ℕ → ℚ) → β → List ℚ)
    (headLoss : List ℚ → β → Expr)
    (hsep : ∀ f b i, dinoParam i = true → (headLoss f b).uses i = false)
    (batches : List β) (env0 : ℕ → ℚ) (i : ℕ) (hi : dinoParam i = true) :
    train_run opt dinoForward headLoss batches env0 i = env0 i := by
  unfold train_run
  induction batches generalizing env0 with
  | nil => rfl
  | cons b t ih =>
    rw [List.foldl_cons]
    rw [ih (train_batch_step opt dinoForward headLoss env0 b)]
    show opt (env0 i) ((headLoss (dinoForward env0 b) b).grad env0 i) = env0 i
    rw [Expr.grad_eq_zero_of_not_uses _ _ _ (hsep _ b i hi), hopt]

/-- C4 witness: two SGD batches where the feature extractor reads
parameter 0 under no_grad and the head's loss graph uses parameter 1;
parameter 0 keeps its initial value 5. -/
theorem C4_witness :
    train_run (fun p g => p - g) (fun env _ => [env 0 * 2])
      (fun f _ => Expr.mul (Expr.param 1) (Expr.const (f.headD 0)))
      [(), ()] (fun _ => (5 : ℚ)) 0 = 5 :=
  C4_dino_params_unchanged_by_training (fun p g => p - g) (fun p => by ring)
    (fun i => i == 0) (fun env _ => [env 0 * 2])
    (fun f _ => Expr.mul (Expr.param 1) (Expr.const (f.headD 0)))
    (fun f b i hi => by
      have h0 : i = 0 := by simpa using hi
      rw [h0]
      rfl)
    [(), ()] (fun _ => (5 : ℚ)) 0 rfl
